import Mathlib

/-!
Shallow embedding of the trading-cycle decision engine of the stonks bot
(src/main.py, src/screener.py, src/config.py).

Prices, quantities and percentages are rationals; timestamps are rationals
measured in days.  The two external collaborators are made explicit:
the broker is a `BrokerState` value that the cycle reads and transforms,
and the market-data price/EMA lookup is a function returning an `Option`
(`none` models a failed download or insufficient history).  Broker calls
are modelled on their happy path; per-call failure handling that the
claims do not touch (logged cancellation errors and the like) is elided.
-/

namespace Stonks

/-- Position side label used in evaluator result rows
(the strings "long" and "short" in main.py). -/
inductive Side where
  | long
  | short
deriving DecidableEq

/-- Order type, as far as the trading cycle inspects it
(alpaca OrderType; only TRAILING_STOP is ever tested for). -/
inductive OrderKind where
  | trailing_stop
  | limit
  | market
deriving DecidableEq

/-- A broker position (alpaca position object): signed quantity
(positive = long, negative = short), average entry price, current price. -/
structure Position where
  symbol : String
  qty : ℚ
  avg_entry_price : ℚ
  current_price : ℚ
deriving DecidableEq

/-- An open order at the broker, as returned by
get_orders(status=OPEN, symbols=[symbol]). -/
structure OpenOrder where
  symbol : String
  order_type : OrderKind
  trail_percent : Option ℚ := none
deriving DecidableEq

/-- A closed order at the broker, as returned by get_orders(status=CLOSED);
filled_at is the fill timestamp in days, none when the order never filled. -/
structure ClosedOrder where
  symbol : String
  filled_at : Option ℚ
deriving DecidableEq

/-- The broker-side state the trading cycle reads and mutates. -/
structure BrokerState where
  positions : List Position
  openOrders : List OpenOrder
  closedOrders : List ClosedOrder
deriving DecidableEq

/-- screener.get_current_price_and_ema as the cycle sees it: for a symbol
and an EMA period, a (current price, EMA value) pair, or none when the
download fails or returns insufficient history. -/
abbrev PriceEma : Type := String → ℕ → Option (ℚ × ℚ)

/-- config.ExitConfig (config.py), with its documented defaults. -/
structure ExitConfig where
  ema_exit_enabled : Bool := true
  ema_period : ℕ := 10
  max_hold_days : ℤ := 14
  trailing_stop_enabled : Bool := true
  trailing_stop_activation_pct : ℚ := 3
  trailing_stop_trail_pct : ℚ := 5
  short_trailing_stop_activation_pct : ℚ := 2
  short_trailing_stop_trail_pct : ℚ := 3
deriving DecidableEq

/-- config.ExitConfig.calendar_exit_enabled: calendar exit is enabled iff
max_hold_days > 0. -/
def ExitConfig.calendar_exit_enabled (c : ExitConfig) : Bool :=
  decide (0 < c.max_hold_days)

/-- config.AnalysisConfig (config.py).  base_risk_percent is documented as
"0.5% of account per trade" and is parsed from the BASE_RISK_PERCENT
environment variable in load_config. -/
structure AnalysisConfig where
  sma_trend_period : ℕ := 200
  sma_entry_period : ℕ := 50
  volume_avg_period : ℕ := 20
  base_risk_percent : ℚ := 1 / 2
  bull_long_multiplier : ℚ := 1
  bull_short_multiplier : ℚ := 1 / 2
  bear_long_multiplier : ℚ := 1 / 2
  bear_short_multiplier : ℚ := 1
deriving DecidableEq

/-- main.TradeIdea, equivalently the dict built by
screener._build_trade_result (the redundant display label "action" is
omitted; side is the string "buy" or "sell" as in the source). -/
structure TradeIdea where
  ticker : String
  side : String
  quantity : ℤ
  entry_price : ℚ
  stop_loss : ℚ
  target_price : ℚ
  potential_gain_percent : ℚ
  potential_profit : ℚ
  risk_reward_ratio : ℚ
  total_capital : ℚ
  capital_percent_of_account : ℚ
  max_loss : ℚ
  sma_50 : ℚ
  sma_200 : ℚ
deriving DecidableEq

/-- screener.RISK_PERCENT = 0.005, a module-level constant of screener.py.
It is not read from config.py. -/
def RISK_PERCENT : ℚ := 5 / 1000

/-- The risk budget computed at the top of screener._build_trade_result:
risk_percent = RISK_PERCENT * risk_multiplier and
max_risk_dollars = account_value * risk_percent. -/
def max_risk_dollars (account_value risk_multiplier : ℚ) : ℚ :=
  account_value * (RISK_PERCENT * risk_multiplier)

/-- screener._build_trade_result: risk-based position sizing and the derived
trade economics.  Returns none when risk per share is non-positive or the
floored share count is zero (Python int(a // b) = floor for these inputs). -/
def build_trade_result (ticker : String) (side : String)
    (current_close stop_loss target sma_50 sma_200 account_value risk_multiplier : ℚ) :
    Option TradeIdea :=
  let risk_per_share : ℚ := |current_close - stop_loss|
  if risk_per_share ≤ 0 then none
  else
    let shares : ℤ := ⌊max_risk_dollars account_value risk_multiplier / risk_per_share⌋
    if shares = 0 then none
    else
      some
        { ticker := ticker
          side := side
          quantity := shares
          entry_price := current_close
          stop_loss := stop_loss
          target_price := target
          potential_gain_percent := |target - current_close| / current_close * 100
          potential_profit := |target - current_close| * (shares : ℚ)
          risk_reward_ratio := |target - current_close| / risk_per_share
          total_capital := (shares : ℚ) * current_close
          capital_percent_of_account := (shares : ℚ) * current_close / account_value * 100
          max_loss := (shares : ℚ) * risk_per_share
          sma_50 := sma_50
          sma_200 := sma_200 }

/-- main.filter_results loop, with the mutable remaining_capital made an
explicit argument; returns the accepted ideas and the remaining capital. -/
def filter_results_go : List TradeIdea → ℚ → List TradeIdea × ℚ
  | [], remaining_capital => ([], remaining_capital)
  | trade :: rest, remaining_capital =>
    if trade.total_capital ≤ remaining_capital then
      let r := filter_results_go rest (remaining_capital - trade.total_capital)
      (trade :: r.1, r.2)
    else filter_results_go rest remaining_capital

/-- main.filter_results: greedily accept ideas (already sorted by
potential_gain_percent descending) while their total_capital fits in the
remaining capital. -/
def filter_results (results : List TradeIdea) (available_capital : ℚ) :
    List TradeIdea :=
  (filter_results_go results available_capital).1

/-- main.get_position_entry_date: the earliest fill timestamp among the
symbol's closed orders (the source keeps the filled orders, sorts them by
filled_at and takes the first, i.e. the minimum); none when no filled
order exists. -/
def get_position_entry_date (st : BrokerState) (symbol : String) : Option ℚ :=
  match (st.closedOrders.filter (fun o => o.symbol == symbol)).filterMap
      (fun o => o.filled_at) with
  | [] => none
  | t :: ts => some (ts.foldl min t)

/-- main.get_positions_older_than: positions whose entry date is before
now - days; positions without a determinable entry date are skipped. -/
def get_positions_older_than (st : BrokerState) (now : ℚ) (days : ℤ) :
    List Position :=
  st.positions.filter (fun pos =>
    match get_position_entry_date st pos.symbol with
    | some entry_date => decide (entry_date < now - (days : ℚ))
    | none => false)

/-- Body of the loop in main.get_positions_for_ema_exit, for one position:
skip on failed lookup; a long position (qty > 0) yields a row when
price < EMA, any other position when price > EMA. -/
def ema_exit_check (pe : PriceEma) (ema_period : ℕ) (pos : Position) :
    Option (String × ℚ × ℚ × Side) :=
  let is_long := 0 < pos.qty
  match pe pos.symbol ema_period with
  | none => none
  | some (current_price, ema_value) =>
    if is_long ∧ current_price < ema_value then
      some (pos.symbol, current_price, ema_value, Side.long)
    else if ¬is_long ∧ ema_value < current_price then
      some (pos.symbol, current_price, ema_value, Side.short)
    else none

/-- main.get_positions_for_ema_exit over the full position set. -/
def get_positions_for_ema_exit (st : BrokerState) (pe : PriceEma)
    (ema_period : ℕ) : List (String × ℚ × ℚ × Side) :=
  st.positions.filterMap (ema_exit_check pe ema_period)

/-- Body of the loop in main.get_positions_for_trailing_stop, for one
position: unrealized gain percent (long and short formulas) compared with
the side-specific activation threshold. -/
def trailing_stop_check (long_activation_percent short_activation_percent : ℚ)
    (pos : Position) : Option (String × ℚ × ℚ × ℚ × Side) :=
  let is_long := 0 < pos.qty
  let entry_price := pos.avg_entry_price
  let current_price := pos.current_price
  let gain_percent : ℚ :=
    if is_long then (current_price - entry_price) / entry_price * 100
    else (entry_price - current_price) / entry_price * 100
  let activation_threshold :=
    if is_long then long_activation_percent else short_activation_percent
  if activation_threshold ≤ gain_percent then
    some (pos.symbol, entry_price, current_price, gain_percent,
      if is_long then Side.long else Side.short)
  else none

/-- main.get_positions_for_trailing_stop over the full position set. -/
def get_positions_for_trailing_stop (st : BrokerState)
    (long_activation_percent short_activation_percent : ℚ) :
    List (String × ℚ × ℚ × ℚ × Side) :=
  st.positions.filterMap
    (trailing_stop_check long_activation_percent short_activation_percent)

/-- The open-order check of Step 1c in main.run_trading_cycle: whether the
symbol already carries an open trailing-stop order. -/
def has_open_trailing_stop (st : BrokerState) (symbol : String) : Bool :=
  (st.openOrders.filter (fun o => o.symbol == symbol)).any
    (fun o => o.order_type == OrderKind.trailing_stop)

/-- main.activate_trailing_stop on the happy path of its broker calls:
look up the position (lookup failure or zero quantity aborts without
submitting), cancel every open order for the symbol, submit one
trailing-stop order sized to the position.  Returns whether a trailing
stop was submitted, with the resulting broker state. -/
def activate_trailing_stop (st : BrokerState) (symbol : String)
    (trail_percent : ℚ) : Bool × BrokerState :=
  match st.positions.find? (fun p => p.symbol == symbol) with
  | none => (false, st)
  | some position =>
    if position.qty = 0 then (false, st)
    else
      (true,
        { st with
          openOrders :=
            st.openOrders.filter (fun o => o.symbol != symbol)
              ++ [{ symbol := symbol, order_type := OrderKind.trailing_stop,
                    trail_percent := some trail_percent }] })

/-- Body of the Step 1c loop of main.run_trading_cycle for one eligible
row: pick the side-specific trail percent, skip when an open trailing-stop
order already exists for the symbol, otherwise activate one; accumulate
the (symbol, trail percent) orders submitted. -/
def trailing_loop_body (cfg : ExitConfig)
    (acc : BrokerState × List (String × ℚ)) (row : String × ℚ × ℚ × ℚ × Side) :
    BrokerState × List (String × ℚ) :=
  let symbol := row.1
  let side := row.2.2.2.2
  let trail_percent :=
    if side = Side.long then cfg.trailing_stop_trail_pct
    else cfg.short_trailing_stop_trail_pct
  if has_open_trailing_stop acc.1 symbol then acc
  else
    let r := activate_trailing_stop acc.1 symbol trail_percent
    (r.2, if r.1 then acc.2 ++ [(symbol, trail_percent)] else acc.2)

/-- Step 1c of main.run_trading_cycle: trailing-stop activation over all
eligible positions, threading the broker state; returns the final state
and the trailing-stop orders submitted in this step. -/
def step1c (st : BrokerState) (cfg : ExitConfig) :
    BrokerState × List (String × ℚ) :=
  if cfg.trailing_stop_enabled then
    (get_positions_for_trailing_stop st cfg.trailing_stop_activation_pct
      cfg.short_trailing_stop_activation_pct).foldl (trailing_loop_body cfg) (st, [])
  else (st, [])

/-- Steps 1a and 1b of main.run_trading_cycle: the positions_to_close set,
as the list of symbols flagged by the calendar rule and by the EMA rule
(the source collects them in a set; membership is what matters below). -/
def positions_to_close (st : BrokerState) (cfg : ExitConfig) (pe : PriceEma)
    (now : ℚ) : List String :=
  (if cfg.calendar_exit_enabled then
      (get_positions_older_than st now cfg.max_hold_days).map (fun p => p.symbol)
    else [])
    ++ (if cfg.ema_exit_enabled then
      (get_positions_for_ema_exit st pe cfg.ema_period).map (fun r => r.1)
    else [])

/-- main.close_position_with_cancel on the happy path: cancel every open
order for the symbol, then close the position at the broker. -/
def close_position_with_cancel (st : BrokerState) (symbol : String) :
    BrokerState :=
  { st with
    positions := st.positions.filter (fun p => p.symbol != symbol)
    openOrders := st.openOrders.filter (fun o => o.symbol != symbol) }

/-- Step 1d of main.run_trading_cycle: close every symbol flagged for exit. -/
def step1d (st : BrokerState) (to_close : List String) : BrokerState :=
  to_close.foldl close_position_with_cancel st

/-- Body of the Step 6 loop of main.run_trading_cycle for one filtered
idea: skip a symbol already in the currently-held set; otherwise attempt
the bracket order (ok says whether place_bracket_order succeeds) and on
success record the order and add the symbol to the held set at once. -/
def place_body (ok : TradeIdea → Bool)
    (acc : List TradeIdea × List String) (trade : TradeIdea) :
    List TradeIdea × List String :=
  if trade.ticker ∈ acc.2 then acc
  else if ok trade then (acc.1 ++ [trade], acc.2 ++ [trade.ticker])
  else acc

/-- Steps 2 and 6 of main.run_trading_cycle: starting from the live
current-position symbol set, walk the filtered ideas placing bracket
orders; returns the successfully placed orders and the final held set. -/
def place_orders (ok : TradeIdea → Bool) (filtered : List TradeIdea)
    (current_positions : List String) : List TradeIdea × List String :=
  filtered.foldl (place_body ok) ([], current_positions)

/-! Concrete fixtures used by examples, witnesses and counterexamples. -/

/-- Fixture symbol. -/
def aapl : String := "AAPL"

/-- Fixture side strings matching the source literals. -/
def side_buy : String := "buy"

/-- Fixture: a long position up 10% from its entry. -/
def ex_position : Position :=
  { symbol := aapl, qty := 1, avg_entry_price := 100, current_price := 110 }

/-- Fixture broker state: the single long position above, opened (earliest
fill) at day 0, with no open orders. -/
def ex_state : BrokerState :=
  { positions := [ex_position]
    openOrders := []
    closedOrders := [{ symbol := aapl, filled_at := some 0 }] }

/-- Fixture config: defaults of config.ExitConfig except that the EMA rule
is switched off (so the Close set below comes from the calendar rule). -/
def ex_cfg : ExitConfig := { ema_exit_enabled := false }

/-- Fixture price/EMA lookup that always fails. -/
def ex_pe : PriceEma := fun _ _ => none

/-- Fixture current time: day 20, so the day-0 entry is 20 days old. -/
def ex_now : ℚ := 20

/-- Fixture broker state: as ex_state but with an open trailing-stop order
already carried by the symbol. -/
def ex_state_ts : BrokerState :=
  { ex_state with
    openOrders := [{ symbol := aapl, order_type := OrderKind.trailing_stop }] }

/-- Fixture idea with total_capital 500, highest potential gain. -/
def idea_a : TradeIdea :=
  { ticker := "AAA", side := side_buy, quantity := 5, entry_price := 100,
    stop_loss := 98, target_price := 103, potential_gain_percent := 3,
    potential_profit := 15, risk_reward_ratio := 3 / 2, total_capital := 500,
    capital_percent_of_account := 1 / 2, max_loss := 10, sma_50 := 99,
    sma_200 := 90 }

/-- Fixture idea with total_capital 300, second-highest potential gain. -/
def idea_b : TradeIdea :=
  { ticker := "BBB", side := side_buy, quantity := 3, entry_price := 100,
    stop_loss := 98, target_price := 103, potential_gain_percent := 2,
    potential_profit := 9, risk_reward_ratio := 3 / 2, total_capital := 300,
    capital_percent_of_account := 3 / 10, max_loss := 6, sma_50 := 99,
    sma_200 := 90 }

/-- Fixture idea with total_capital 1200, lowest potential gain. -/
def idea_c : TradeIdea :=
  { ticker := "CCC", side := side_buy, quantity := 12, entry_price := 100,
    stop_loss := 98, target_price := 103, potential_gain_percent := 1,
    potential_profit := 36, risk_reward_ratio := 3 / 2, total_capital := 1200,
    capital_percent_of_account := 6 / 5, max_loss := 24, sma_50 := 99,
    sma_200 := 90 }

/-! Claim theorems. -/

/-- Helper: the capital filter only ever drops ideas, preserving input
order (its output is a sublist of its input). -/
theorem filter_results_go_sublist (results : List TradeIdea) :
    ∀ cap : ℚ, ((filter_results_go results cap).1).Sublist results := by
  induction results with
  | nil => intro cap; simp [filter_results_go]
  | cons trade rest ih =>
    intro cap
    by_cases h : trade.total_capital ≤ cap
    · simpa [filter_results_go, h] using List.Sublist.cons₂ trade (ih _)
    · simpa [filter_results_go, h] using List.Sublist.cons trade (ih _)

/-- C7: filter_results greedily accepts an idea exactly when its
total_capital fits in the remaining capital, deducting it on acceptance,
and preserves the input order; on total_capital [500, 300, 1200] with
available capital 1000 it returns [500, 300] leaving 200. -/
theorem filter_results_greedy_by_priority :
    (∀ (results : List TradeIdea) (cap : ℚ),
      ((filter_results results cap).Sublist results))
    ∧ (∀ (trade : TradeIdea) (rest : List TradeIdea) (cap : ℚ),
      filter_results (trade :: rest) cap =
        if trade.total_capital ≤ cap then
          trade :: filter_results rest (cap - trade.total_capital)
        else filter_results rest cap)
    ∧ filter_results [idea_a, idea_b, idea_c] 1000 = [idea_a, idea_b]
    ∧ (filter_results_go [idea_a, idea_b, idea_c] 1000).2 = 200 := by
  refine ⟨fun results cap => filter_results_go_sublist results cap,
    fun trade rest cap => ?_,
    by norm_num [filter_results, filter_results_go, idea_a, idea_b, idea_c],
    by norm_num [filter_results_go, idea_a, idea_b, idea_c]⟩
  by_cases h : trade.total_capital ≤ cap <;>
    simp [filter_results, filter_results_go, h]

/-- C2 (code bug): the position sizer computes its risk budget from the
hard-coded constant screener.RISK_PERCENT = 0.005, never from
config.AnalysisConfig.base_risk_percent, so a configuration overriding the
base risk percent to 1 (one percent per trade) still yields a 500-dollar
budget on a 100000 account where account * b * m would give 1000. -/
theorem base_risk_percent_not_used :
    max_risk_dollars 100000 1 = 500
    ∧ (100000 : ℚ) *
        (({ base_risk_percent := 1 } : AnalysisConfig).base_risk_percent / 100) * 1
        = 1000
    ∧ max_risk_dollars 100000 1 ≠
        (100000 : ℚ) *
          (({ base_risk_percent := 1 } : AnalysisConfig).base_risk_percent / 100) * 1 := by
  refine ⟨by norm_num [max_risk_dollars, RISK_PERCENT], by norm_num, ?_⟩
  norm_num [max_risk_dollars, RISK_PERCENT]

/-- C6: with risk_per_share = |close - stop| and the risk budget
max_risk_dollars, the sizer yields no idea when risk_per_share ≤ 0 or the
floored share count is 0, and otherwise yields exactly
floor(budget / risk_per_share) shares, whose total risk never exceeds the
budget. -/
theorem position_sizer_floor (ticker side : String)
    (current_close stop_loss target sma_50 sma_200 account_value risk_multiplier : ℚ) :
    (|current_close - stop_loss| ≤ 0 →
      build_trade_result ticker side current_close stop_loss target sma_50 sma_200
        account_value risk_multiplier = none)
    ∧ (0 < |current_close - stop_loss| →
        ⌊max_risk_dollars account_value risk_multiplier / |current_close - stop_loss|⌋ = 0 →
        build_trade_result ticker side current_close stop_loss target sma_50 sma_200
          account_value risk_multiplier = none)
    ∧ (0 < |current_close - stop_loss| →
        ⌊max_risk_dollars account_value risk_multiplier / |current_close - stop_loss|⌋ ≠ 0 →
        ∃ r, build_trade_result ticker side current_close stop_loss target sma_50 sma_200
            account_value risk_multiplier = some r
          ∧ r.quantity =
              ⌊max_risk_dollars account_value risk_multiplier / |current_close - stop_loss|⌋
          ∧ (r.quantity : ℚ) * |current_close - stop_loss| ≤
              max_risk_dollars account_value risk_multiplier) := by
  refine ⟨fun h => by simp [build_trade_result, h], fun h0 hf => ?_, fun h0 hf => ?_⟩
  · simp [build_trade_result, not_le.mpr h0, hf]
  · simp only [build_trade_result]
    rw [if_neg (not_le.mpr h0), if_neg hf]
    refine ⟨_, rfl, rfl, ?_⟩
    have h1 : (⌊max_risk_dollars account_value risk_multiplier /
        |current_close - stop_loss|⌋ : ℚ) ≤
        max_risk_dollars account_value risk_multiplier / |current_close - stop_loss| :=
      Int.floor_le _
    have h2 := mul_le_mul_of_nonneg_right h1 (le_of_lt h0)
    rwa [div_mul_cancel₀ _ (ne_of_gt h0)] at h2

/-- Witness for C6 at the spec scenario: account 100000, multiplier 1,
entry 100, stop 98 gives budget 500, risk per share 2 and 250 shares with
250 * 2 ≤ 500. -/
theorem position_sizer_floor_witness :
    ∃ r, build_trade_result aapl side_buy 100 98 103 99 90 100000 1 = some r
      ∧ r.quantity = ⌊max_risk_dollars 100000 1 / |(100 : ℚ) - 98|⌋
      ∧ (r.quantity : ℚ) * |(100 : ℚ) - 98| ≤ max_risk_dollars 100000 1 :=
  (position_sizer_floor aapl side_buy 100 98 103 99 90 100000 1).2.2
    (by norm_num) (by norm_num [max_risk_dollars, RISK_PERCENT])

/-- Helper: a left fold of min is one of the folded elements. -/
theorem foldl_min_mem : ∀ (ts : List ℚ) (t : ℚ), ts.foldl min t ∈ t :: ts := by
  intro ts
  induction ts with
  | nil => intro t; simp
  | cons u ts ih =>
    intro t
    rw [List.foldl_cons]
    rcases List.mem_cons.mp (ih (min t u)) with h1 | h1
    · rw [h1]
      rcases min_choice t u with h2 | h2 <;> rw [h2] <;> simp
    · exact List.mem_cons_of_mem _ (List.mem_cons_of_mem _ h1)

/-- Helper: a left fold of min is a lower bound of the folded elements. -/
theorem foldl_min_le : ∀ (ts : List ℚ) (t x : ℚ), x ∈ t :: ts → ts.foldl min t ≤ x := by
  intro ts
  induction ts with
  | nil =>
    intro t x hx
    rw [List.mem_singleton] at hx
    simp [hx]
  | cons u ts ih =>
    intro t x hx
    rw [List.foldl_cons]
    have hself : ts.foldl min (min t u) ≤ min t u :=
      ih (min t u) (min t u) (List.mem_cons_self _ _)
    rcases List.mem_cons.mp hx with h1 | h1
    · rw [h1]
      exact le_trans hself (min_le_left t u)
    · rcases List.mem_cons.mp h1 with h2 | h2
      · rw [h2]
        exact le_trans hself (min_le_right t u)
      · exact ih (min t u) x (List.mem_cons_of_mem _ h2)

/-- C3: with the calendar rule enabled (max_hold_days = days > 0), a
position is flagged by get_positions_older_than iff its entry date is
determinable and now - entry date is strictly greater than days (exactly
days old is excluded); a position with no determinable fill is never
flagged; and the entry date the code derives is the earliest fill
timestamp among the symbol's closed orders. -/
theorem calendar_rule_strict_age (st : BrokerState) (now : ℚ) (days : ℤ)
    (pos : Position) (hmem : pos ∈ st.positions) (hdays : 0 < days) :
    (pos ∈ get_positions_older_than st now days ↔
      ∃ d, get_position_entry_date st pos.symbol = some d ∧ (days : ℚ) < now - d)
    ∧ (get_position_entry_date st pos.symbol = none →
        pos ∉ get_positions_older_than st now days)
    ∧ ∀ d, get_position_entry_date st pos.symbol = some d →
        d ∈ (st.closedOrders.filter (fun o => o.symbol == pos.symbol)).filterMap
              (fun o => o.filled_at)
        ∧ ∀ t ∈ (st.closedOrders.filter (fun o => o.symbol == pos.symbol)).filterMap
              (fun o => o.filled_at), d ≤ t := by
  have hiff : pos ∈ get_positions_older_than st now days ↔
      ∃ d, get_position_entry_date st pos.symbol = some d ∧ (days : ℚ) < now - d := by
    unfold get_positions_older_than
    rw [List.mem_filter]
    cases h : get_position_entry_date st pos.symbol with
    | none => simp [h, hmem]
    | some d0 =>
      simp only [h, hmem, true_and, decide_eq_true_eq, Option.some.injEq]
      constructor
      · intro hlt
        exact ⟨d0, rfl, by linarith⟩
      · rintro ⟨d, hd, hlt⟩
        subst hd
        linarith
  refine ⟨hiff, fun hnone hmem2 => ?_, fun d hd => ?_⟩
  · rcases hiff.mp hmem2 with ⟨d, hd, _⟩
    rw [hnone] at hd
    exact Option.noConfusion hd
  · unfold get_position_entry_date at hd
    rcases hfl : (st.closedOrders.filter (fun o => o.symbol == pos.symbol)).filterMap
        (fun o => o.filled_at) with _ | ⟨t, ts⟩
    · rw [hfl] at hd
      simp at hd
    · rw [hfl] at hd
      simp only [Option.some.injEq] at hd
      subst hd
      rw [hfl]
      exact ⟨foldl_min_mem ts t, fun x hx => foldl_min_le ts t x hx⟩

/-- Witness for C3: the fixture position, filled at day 0, is flagged at
day 20 with a 14-day maximum hold. -/
theorem calendar_rule_strict_age_witness :
    ex_position ∈ get_positions_older_than ex_state 20 14 :=
  (calendar_rule_strict_age ex_state 20 14 ex_position (by simp [ex_state])
      (by norm_num)).1.mpr
    ⟨0, by simp [get_position_entry_date, ex_state, ex_position], by norm_num⟩

/-- Fixture price/EMA lookup: price 95 below EMA 100. -/
def ex_pe_low : PriceEma := fun _ _ => some (95, 100)

/-- Fixture price/EMA lookup: price 105 above EMA 100. -/
def ex_pe_high : PriceEma := fun _ _ => some (105, 100)

/-- Fixture: a broker position with quantity exactly zero whose price has
fallen 10% below its entry. -/
def ex_position_zero : Position :=
  { symbol := aapl, qty := 0, avg_entry_price := 100, current_price := 90 }

/-- C5: for a successfully fetched (price, ema) pair, a long position
(qty > 0) is flagged by the EMA rule iff price < ema, a short position
(qty < 0) iff price > ema, a tie flags neither, and the two inequalities
can never hold together; a flagged position's row is in the rule's output. -/
theorem ema_exit_direction (st : BrokerState) (pe : PriceEma) (ema_period : ℕ)
    (pos : Position) (price ema : ℚ)
    (hmem : pos ∈ st.positions)
    (hpe : pe pos.symbol ema_period = some (price, ema)) :
    (0 < pos.qty →
      ((ema_exit_check pe ema_period pos).isSome = true ↔ price < ema)
      ∧ (price < ema →
          ema_exit_check pe ema_period pos = some (pos.symbol, price, ema, Side.long)
          ∧ (pos.symbol, price, ema, Side.long)
              ∈ get_positions_for_ema_exit st pe ema_period))
    ∧ (pos.qty < 0 →
      ((ema_exit_check pe ema_period pos).isSome = true ↔ ema < price)
      ∧ (ema < price →
          ema_exit_check pe ema_period pos = some (pos.symbol, price, ema, Side.short)
          ∧ (pos.symbol, price, ema, Side.short)
              ∈ get_positions_for_ema_exit st pe ema_period))
    ∧ (price = ema → ema_exit_check pe ema_period pos = none)
    ∧ ¬(price < ema ∧ ema < price) := by
  refine ⟨fun hl => ?_, fun hs => ?_, fun heq => ?_,
    fun h => absurd h.2 (not_lt.mpr (le_of_lt h.1))⟩
  · by_cases hlt : price < ema
    · have hck : ema_exit_check pe ema_period pos
          = some (pos.symbol, price, ema, Side.long) := by
        simp [ema_exit_check, hpe, hl, hlt]
      exact ⟨by simp [hck, hlt], fun _ =>
        ⟨hck, List.mem_filterMap.mpr ⟨pos, hmem, hck⟩⟩⟩
    · have hck : ema_exit_check pe ema_period pos = none := by
        simp [ema_exit_check, hpe, hl, hlt]
      exact ⟨by simp [hck, hlt], fun h => absurd h hlt⟩
  · have h0 : ¬ 0 < pos.qty := not_lt.mpr (le_of_lt hs)
    by_cases hgt : ema < price
    · have hck : ema_exit_check pe ema_period pos
          = some (pos.symbol, price, ema, Side.short) := by
        simp [ema_exit_check, hpe, h0, hgt]
      exact ⟨by simp [hck, hgt], fun _ =>
        ⟨hck, List.mem_filterMap.mpr ⟨pos, hmem, hck⟩⟩⟩
    · have hck : ema_exit_check pe ema_period pos = none := by
        simp [ema_exit_check, hpe, h0, hgt]
      exact ⟨by simp [hck, hgt], fun h => absurd h hgt⟩
  · subst heq
    simp [ema_exit_check, hpe]

/-- Witness for C5: the fixture long position with price 95 below EMA 100
is flagged long by the EMA rule. -/
theorem ema_exit_direction_witness :
    ((ema_exit_check ex_pe_low 10 ex_position).isSome = true ↔ (95 : ℚ) < 100)
    ∧ ((95 : ℚ) < 100 →
        ema_exit_check ex_pe_low 10 ex_position
          = some (ex_position.symbol, 95, 100, Side.long)
        ∧ (ex_position.symbol, (95 : ℚ), (100 : ℚ), Side.long)
            ∈ get_positions_for_ema_exit ex_state ex_pe_low 10) :=
  (ema_exit_direction ex_state ex_pe_low 10 ex_position 95 100
    (by simp [ex_state]) rfl).1
    (by norm_num [ex_position])

/-- C9: when the price/EMA lookup fails for a position's symbol, the EMA
rule yields nothing for that position and its presence in the position
list does not change the rows produced for the remaining positions. -/
theorem ema_exit_skips_failed_lookup (pe : PriceEma) (ema_period : ℕ)
    (l1 l2 : List Position) (pos : Position)
    (opn : List OpenOrder) (cls : List ClosedOrder)
    (hfail : pe pos.symbol ema_period = none) :
    ema_exit_check pe ema_period pos = none
    ∧ get_positions_for_ema_exit ⟨l1 ++ pos :: l2, opn, cls⟩ pe ema_period
      = get_positions_for_ema_exit ⟨l1 ++ l2, opn, cls⟩ pe ema_period := by
  have h1 : ema_exit_check pe ema_period pos = none := by
    simp [ema_exit_check, hfail]
  refine ⟨h1, ?_⟩
  simp [get_positions_for_ema_exit, List.filterMap_append, List.filterMap_cons, h1]

/-- Witness for C9: the always-failing lookup fixture skips the fixture
position and evaluating around it is unchanged. -/
theorem ema_exit_skips_failed_lookup_witness :
    ema_exit_check ex_pe 10 ex_position = none
    ∧ get_positions_for_ema_exit ⟨[] ++ ex_position :: [], [], []⟩ ex_pe 10
      = get_positions_for_ema_exit ⟨[] ++ [], [], []⟩ ex_pe 10 :=
  ema_exit_skips_failed_lookup ex_pe 10 [] [] ex_position [] [] rfl

/-- C10: a position with quantity exactly zero is classified as short by
both evaluators (side is decided solely by qty > 0): the EMA rule flags it
exactly when price > ema, and the trailing-stop rule computes the
short-side gain percent for it and deems it eligible exactly when that
gain reaches the short activation threshold. -/
theorem zero_qty_treated_as_short (pe : PriceEma) (ema_period : ℕ)
    (pos : Position) (price ema la sa : ℚ) (hq : pos.qty = 0) :
    (pe pos.symbol ema_period = some (price, ema) →
      ((ema_exit_check pe ema_period pos).isSome = true ↔ ema < price)
      ∧ (ema < price →
          ema_exit_check pe ema_period pos = some (pos.symbol, price, ema, Side.short)))
    ∧ trailing_stop_check la sa pos =
        (if sa ≤ (pos.avg_entry_price - pos.current_price) / pos.avg_entry_price * 100 then
          some (pos.symbol, pos.avg_entry_price, pos.current_price,
            (pos.avg_entry_price - pos.current_price) / pos.avg_entry_price * 100,
            Side.short)
        else none) := by
  have h0 : ¬ 0 < pos.qty := by
    rw [hq]
    exact lt_irrefl 0
  constructor
  · intro hpe
    by_cases hgt : ema < price
    · have hck : ema_exit_check pe ema_period pos
          = some (pos.symbol, price, ema, Side.short) := by
        simp [ema_exit_check, hpe, h0, hgt]
      exact ⟨by simp [hck, hgt], fun _ => hck⟩
    · have hck : ema_exit_check pe ema_period pos = none := by
        simp [ema_exit_check, hpe, h0, hgt]
      exact ⟨by simp [hck, hgt], fun h => absurd h hgt⟩
  · simp [trailing_stop_check, h0]

/-- Witness for C10: the zero-quantity fixture position, 10% below entry,
is flagged by the EMA rule on price 105 > EMA 100 and is
activation-eligible at the short threshold 2. -/
theorem zero_qty_treated_as_short_witness :
    (ex_pe_high ex_position_zero.symbol 10 = some (105, 100) →
      ((ema_exit_check ex_pe_high 10 ex_position_zero).isSome = true ↔ (100 : ℚ) < 105)
      ∧ ((100 : ℚ) < 105 →
          ema_exit_check ex_pe_high 10 ex_position_zero
            = some (ex_position_zero.symbol, 105, 100, Side.short)))
    ∧ trailing_stop_check 3 2 ex_position_zero =
        (if (2 : ℚ) ≤ (ex_position_zero.avg_entry_price - ex_position_zero.current_price)
              / ex_position_zero.avg_entry_price * 100 then
          some (ex_position_zero.symbol, ex_position_zero.avg_entry_price,
            ex_position_zero.current_price,
            (ex_position_zero.avg_entry_price - ex_position_zero.current_price)
              / ex_position_zero.avg_entry_price * 100, Side.short)
        else none) :=
  zero_qty_treated_as_short ex_pe_high 10 ex_position_zero 105 100 3 2 rfl

/-- Helper: activating a trailing stop for any symbol never removes an
existing open trailing-stop order of another symbol, and (re)creates one
for its own symbol, so carrying an open trailing stop is preserved. -/
theorem has_ts_after_activate (st : BrokerState) (s s2 : String) (t : ℚ)
    (h : has_open_trailing_stop st s = true) :
    has_open_trailing_stop (activate_trailing_stop st s2 t).2 s = true := by
  unfold activate_trailing_stop
  cases hf : st.positions.find? (fun p => p.symbol == s2) with
  | none =>
    simp only [hf]
    exact h
  | some p =>
    by_cases hq : p.qty = 0
    · simp only [hf, if_pos hq]
      exact h
    · simp only [hf, if_neg hq]
      unfold has_open_trailing_stop at h ⊢
      rw [List.any_eq_true] at h ⊢
      obtain ⟨o, ho, hot⟩ := h
      rw [List.mem_filter] at ho
      obtain ⟨homem, hos⟩ := ho
      by_cases hss : s = s2
      · refine ⟨⟨s2, OrderKind.trailing_stop, some t⟩, ?_, by simp⟩
        rw [List.mem_filter]
        refine ⟨List.mem_append_right _ (List.mem_singleton_self _), by simp [hss]⟩
      · refine ⟨o, ?_, hot⟩
        rw [List.mem_filter]
        refine ⟨List.mem_append_left _ ?_, hos⟩
        rw [List.mem_filter]
        refine ⟨homem, ?_⟩
        have hsym : o.symbol = s := by simpa using hos
        simp [hsym, hss]

/-- Helper invariant for the Step 1c loop: once a symbol carries an open
trailing-stop order, folding the activation loop never submits a new
trailing-stop order for it, and the symbol keeps its trailing stop. -/
theorem step1c_fold_no_resubmit (cfg : ExitConfig) (s : String) :
    ∀ (rows : List (String × ℚ × ℚ × ℚ × Side)) (st : BrokerState)
      (subs : List (String × ℚ)),
      has_open_trailing_stop st s = true →
      (∀ t, (s, t) ∉ subs) →
      has_open_trailing_stop (rows.foldl (trailing_loop_body cfg) (st, subs)).1 s = true
      ∧ ∀ t, (s, t) ∉ (rows.foldl (trailing_loop_body cfg) (st, subs)).2 := by
  intro rows
  induction rows with
  | nil =>
    intro st subs h1 h2
    exact ⟨h1, h2⟩
  | cons row rest ih =>
    intro st subs h1 h2
    rw [List.foldl_cons]
    by_cases hb : has_open_trailing_stop st row.1 = true
    · have hbody : trailing_loop_body cfg (st, subs) row = (st, subs) := by
        simp [trailing_loop_body, hb]
      rw [hbody]
      exact ih st subs h1 h2
    · have hrs : row.1 ≠ s := fun he => hb (by rw [he]; exact h1)
      set tp := (if row.2.2.2.2 = Side.long then cfg.trailing_stop_trail_pct
        else cfg.short_trailing_stop_trail_pct) with htp
      have hbody : trailing_loop_body cfg (st, subs) row =
          ((activate_trailing_stop st row.1 tp).2,
            if (activate_trailing_stop st row.1 tp).1 then
              subs ++ [(row.1, tp)] else subs) := by
        simp [trailing_loop_body, hb, htp]
      rw [hbody]
      apply ih
      · exact has_ts_after_activate st s row.1 tp h1
      · intro t ht
        by_cases hok : (activate_trailing_stop st row.1 tp).1 = true
        · rw [if_pos hok, List.mem_append] at ht
          rcases ht with h | h
          · exact h2 t h
          · rw [List.mem_singleton, Prod.mk.injEq] at h
            exact hrs h.1.symm
        · rw [if_neg hok] at ht
          exact h2 t ht

/-- C4: trailing-stop activation is idempotent: a symbol that already
carries an open trailing-stop order never has a new trailing-stop order
submitted for it by Step 1c, with no intervening broker state change. -/
theorem trailing_stop_idempotent (st : BrokerState) (cfg : ExitConfig)
    (s : String) (trail : ℚ)
    (h : has_open_trailing_stop st s = true) :
    (s, trail) ∉ (step1c st cfg).2 := by
  unfold step1c
  by_cases he : cfg.trailing_stop_enabled
  · rw [if_pos he]
    exact (step1c_fold_no_resubmit cfg s _ st [] h (by simp)).2 trail
  · rw [if_neg he]
    simp

/-- Witness for C4: the gain-eligible fixture position that already has a
trailing stop gets no second trailing-stop order from Step 1c. -/
theorem trailing_stop_idempotent_witness :
    (aapl, (5 : ℚ)) ∉ (step1c ex_state_ts ex_cfg).2 :=
  trailing_stop_idempotent ex_state_ts ex_cfg aapl 5
    (by simp [has_open_trailing_stop, ex_state_ts, ex_state])

/-- Helper: on the fixture state the calendar rule flags the symbol (its
position is 20 days old with a 14-day maximum hold). -/
theorem ex_close_mem : aapl ∈ positions_to_close ex_state ex_cfg ex_pe ex_now := by
  have h1 : ex_cfg.calendar_exit_enabled = true := rfl
  have h2 : ex_cfg.ema_exit_enabled = false := rfl
  have h3 : ex_cfg.max_hold_days = 14 := rfl
  simp only [positions_to_close, h1, h2, h3, if_true, Bool.false_eq_true, if_false,
    List.append_nil]
  apply List.mem_map.mpr
  refine ⟨ex_position, ?_, rfl⟩
  unfold get_positions_older_than
  apply List.mem_filter.mpr
  refine ⟨by simp [ex_state], ?_⟩
  show (match get_position_entry_date ex_state ex_position.symbol with
    | some entry_date => decide (entry_date < ex_now - ((14 : ℤ) : ℚ))
    | none => false) = true
  rw [show get_position_entry_date ex_state ex_position.symbol = some 0 from rfl]
  norm_num [ex_now]

/-- C1 counterexample: on the fixture state the symbol is flagged for
Close by the calendar rule and Step 1c nevertheless submits a
trailing-stop order for it to the broker (the activation loop does not
consult the Close set), contradicting the claim that no trailing-stop
order is submitted for a symbol flagged for Close in the same cycle. -/
theorem close_and_trailing_both_fire :
    aapl ∈ positions_to_close ex_state ex_cfg ex_pe ex_now
    ∧ (aapl, (5 : ℚ)) ∈ (step1c ex_state ex_cfg).2 := by
  refine ⟨ex_close_mem, ?_⟩
  have hchk : trailing_stop_check ex_cfg.trailing_stop_activation_pct
      ex_cfg.short_trailing_stop_activation_pct ex_position
      = some (aapl, 100, 110, 10, Side.long) := by
    unfold trailing_stop_check
    norm_num [ex_position, ex_cfg, aapl]
  have hrow : get_positions_for_trailing_stop ex_state
      ex_cfg.trailing_stop_activation_pct ex_cfg.short_trailing_stop_activation_pct
      = [(aapl, 100, 110, 10, Side.long)] := by
    unfold get_positions_for_trailing_stop
    rw [show ex_state.positions = [ex_position] from rfl]
    rw [List.filterMap_cons, hchk, List.filterMap_nil]
  unfold step1c
  rw [if_pos (show ex_cfg.trailing_stop_enabled = true from rfl), hrow,
    List.foldl_cons, List.foldl_nil]
  show (aapl, (5 : ℚ)) ∈
    (trailing_loop_body ex_cfg (ex_state, []) (aapl, 100, 110, 10, Side.long)).2
  have hbody : (trailing_loop_body ex_cfg (ex_state, [])
      (aapl, 100, 110, 10, Side.long)).2 = [(aapl, 5)] := by
    unfold trailing_loop_body
    rw [if_neg (show ¬ has_open_trailing_stop ex_state aapl = true from by
      simp [has_open_trailing_stop, ex_state])]
    have hact : (activate_trailing_stop ex_state aapl
        (if Side.long = Side.long then ex_cfg.trailing_stop_trail_pct
          else ex_cfg.short_trailing_stop_trail_pct)).1 = true := by
      unfold activate_trailing_stop
      rw [show ex_state.positions.find? (fun p => p.symbol == aapl)
        = some ex_position from rfl]
      dsimp only
      rw [if_neg (show ¬ ex_position.qty = 0 from by norm_num [ex_position])]
    simp only [hact, if_true, List.nil_append]
    rfl
  rw [hbody]
  simp

/-- Helper: closing a symbol leaves no position and no open order for it. -/
theorem close_position_no_symbol (st : BrokerState) (x : String) :
    (∀ p ∈ (close_position_with_cancel st x).positions, p.symbol ≠ x)
    ∧ ∀ o ∈ (close_position_with_cancel st x).openOrders, o.symbol ≠ x := by
  constructor <;> intro y hy <;>
    simp only [close_position_with_cancel] at hy <;>
    exact bne_iff_ne.mp (List.mem_filter.mp hy).2

/-- Helper: closing any symbol never reintroduces another symbol's
positions or open orders. -/
theorem close_position_keeps_no_symbol (st : BrokerState) (x s : String)
    (h1 : ∀ p ∈ st.positions, p.symbol ≠ s)
    (h2 : ∀ o ∈ st.openOrders, o.symbol ≠ s) :
    (∀ p ∈ (close_position_with_cancel st x).positions, p.symbol ≠ s)
    ∧ ∀ o ∈ (close_position_with_cancel st x).openOrders, o.symbol ≠ s := by
  constructor <;> intro y hy <;> simp only [close_position_with_cancel] at hy
  · exact h1 y (List.mem_filter.mp hy).1
  · exact h2 y (List.mem_filter.mp hy).1

/-- Helper: Step 1d preserves the absence of a symbol. -/
theorem step1d_keeps_no_symbol :
    ∀ (l : List String) (st : BrokerState) (s : String),
      (∀ p ∈ st.positions, p.symbol ≠ s) →
      (∀ o ∈ st.openOrders, o.symbol ≠ s) →
      (∀ p ∈ (step1d st l).positions, p.symbol ≠ s)
      ∧ ∀ o ∈ (step1d st l).openOrders, o.symbol ≠ s := by
  intro l
  induction l with
  | nil =>
    intro st s h1 h2
    exact ⟨h1, h2⟩
  | cons x xs ih =>
    intro st s h1 h2
    have hstep : step1d st (x :: xs) = step1d (close_position_with_cancel st x) xs := rfl
    rw [hstep]
    have hc := close_position_keeps_no_symbol st x s h1 h2
    exact ih (close_position_with_cancel st x) s hc.1 hc.2

/-- Helper: Step 1d removes every symbol of its close list. -/
theorem step1d_removes_symbol :
    ∀ (l : List String) (st : BrokerState) (s : String), s ∈ l →
      (∀ p ∈ (step1d st l).positions, p.symbol ≠ s)
      ∧ ∀ o ∈ (step1d st l).openOrders, o.symbol ≠ s := by
  intro l
  induction l with
  | nil =>
    intro st s h
    cases h
  | cons x xs ih =>
    intro st s h
    have hstep : step1d st (x :: xs) = step1d (close_position_with_cancel st x) xs := rfl
    rw [hstep]
    rcases List.mem_cons.mp h with h1 | h1
    · subst h1
      have hc := close_position_no_symbol st s
      exact step1d_keeps_no_symbol xs (close_position_with_cancel st s) s hc.1 hc.2
    · exact ih (close_position_with_cancel st x) s h1

/-- C1 amended: a symbol flagged for Close is ultimately only closed —
after Step 1c (which may have submitted a trailing stop for it) Step 1d
cancels every open order for the symbol, including any trailing stop, and
closes the position, so the symbol ends the exit phase with no position
and no open order. -/
theorem close_wins_final_state (st : BrokerState) (cfg : ExitConfig)
    (pe : PriceEma) (now : ℚ) (s : String)
    (h : s ∈ positions_to_close st cfg pe now) :
    (∀ p ∈ (step1d (step1c st cfg).1 (positions_to_close st cfg pe now)).positions,
        p.symbol ≠ s)
    ∧ ∀ o ∈ (step1d (step1c st cfg).1 (positions_to_close st cfg pe now)).openOrders,
        o.symbol ≠ s :=
  step1d_removes_symbol _ _ _ h

/-- Witness for the amended C1: on the fixture state the flagged symbol
has neither a position nor any open order once Step 1d has run. -/
theorem close_wins_final_state_witness :
    (∀ p ∈ (step1d (step1c ex_state ex_cfg).1
          (positions_to_close ex_state ex_cfg ex_pe ex_now)).positions,
        p.symbol ≠ aapl)
    ∧ ∀ o ∈ (step1d (step1c ex_state ex_cfg).1
          (positions_to_close ex_state ex_cfg ex_pe ex_now)).openOrders,
        o.symbol ≠ aapl :=
  close_wins_final_state ex_state ex_cfg ex_pe ex_now aapl ex_close_mem

/-- Helper invariant for the Step 6 loop: symbols of placed orders are
always in the running held set, no symbol is placed twice, no initially
held symbol is ever placed, and the held set only grows. -/
theorem place_fold_inv (ok : TradeIdea → Bool) (held : List String) :
    ∀ (ideas : List TradeIdea) (placed : List TradeIdea) (cur : List String),
      (∀ t ∈ placed, t.ticker ∈ cur) →
      (∀ s, (placed.filter (fun t => t.ticker == s)).length ≤ 1) →
      (∀ t ∈ placed, t.ticker ∉ held) →
      (∀ x ∈ held, x ∈ cur) →
      (∀ s, (((ideas.foldl (place_body ok) (placed, cur)).1).filter
          (fun t => t.ticker == s)).length ≤ 1)
      ∧ ∀ t ∈ (ideas.foldl (place_body ok) (placed, cur)).1, t.ticker ∉ held := by
  intro ideas
  induction ideas with
  | nil =>
    intro placed cur i1 i2 i3 i4
    exact ⟨i2, i3⟩
  | cons a rest ih =>
    intro placed cur i1 i2 i3 i4
    rw [List.foldl_cons]
    by_cases h1 : a.ticker ∈ cur
    · have hb : place_body ok (placed, cur) a = (placed, cur) := by
        simp [place_body, h1]
      rw [hb]
      exact ih placed cur i1 i2 i3 i4
    · by_cases h2 : ok a = true
      · have hb : place_body ok (placed, cur) a = (placed ++ [a], cur ++ [a.ticker]) := by
          simp [place_body, h1, h2]
        rw [hb]
        apply ih
        · intro t ht
          rcases List.mem_append.mp ht with h | h
          · exact List.mem_append_left _ (i1 t h)
          · rw [List.mem_singleton] at h
            rw [h]
            exact List.mem_append_right _ (List.mem_singleton_self _)
        · intro s
          rw [List.filter_append, List.length_append]
          by_cases hs : (a.ticker == s) = true
          · have has : a.ticker = s := by simpa using hs
            have hnil : placed.filter (fun t => t.ticker == s) = [] := by
              rw [List.filter_eq_nil_iff]
              intro t ht hts
              have hts2 : t.ticker = s := by simpa using hts
              exact h1 (by rw [has, ← hts2]; exact i1 t ht)
            rw [hnil]
            simp [hs]
          · have hone : ([a].filter (fun t => t.ticker == s)).length = 0 := by
              simp [hs]
            rw [hone]
            simpa using i2 s
        · intro t ht
          rcases List.mem_append.mp ht with h | h
          · exact i3 t h
          · rw [List.mem_singleton] at h
            rw [h]
            exact fun hmemheld => h1 (i4 _ hmemheld)
        · intro x hx
          exact List.mem_append_left _ (i4 x hx)
      · have hb : place_body ok (placed, cur) a = (placed, cur) := by
          simp [place_body, h1, h2]
        rw [hb]
        exact ih placed cur i1 i2 i3 i4

/-- C8: entry placement is idempotent against holdings: starting from the
live held-symbol set, the Step 6 loop never places two bracket orders for
one symbol in a cycle (even when the filtered list repeats a symbol) and
never places an order for a symbol already held. -/
theorem entry_idempotent_per_symbol (ok : TradeIdea → Bool)
    (ideas : List TradeIdea) (held : List String) :
    (∀ s, (((place_orders ok ideas held).1).filter
        (fun t => t.ticker == s)).length ≤ 1)
    ∧ ∀ t ∈ (place_orders ok ideas held).1, t.ticker ∉ held := by
  have h := place_fold_inv ok held ideas [] held (by simp) (by simp) (by simp)
    (fun x hx => hx)
  exact h

/-- Witness for C8 at a concrete input: a list repeating the same idea,
with every placement succeeding, still places at most one order per
symbol. -/
theorem entry_idempotent_per_symbol_witness :
    (∀ s, (((place_orders (fun _ => true) [idea_a, idea_a] []).1).filter
        (fun t => t.ticker == s)).length ≤ 1)
    ∧ ∀ t ∈ (place_orders (fun _ => true) [idea_a, idea_a] []).1,
        t.ticker ∉ ([] : List String) :=
  entry_idempotent_per_symbol (fun _ => true) [idea_a, idea_a] []

/-- Witness for C7 at the concrete input of the claim: capitals
[500, 300, 1200] with 1000 available select [500, 300]. -/
theorem filter_results_greedy_by_priority_witness :
    filter_results [idea_a, idea_b, idea_c] 1000 = [idea_a, idea_b] :=
  filter_results_greedy_by_priority.2.2.1

end Stonks
